import Mathlib

/-!
Verification of the process-orchestration and activity-streaming core of the
mini-claw repository (src/pi-runner.ts, plus the workspace file detector).

The TypeScript source is shallowly embedded:

* `detectActivity` (pi-runner.ts lines 33-60) is translated to a pure Lean
  function over character lists; the JavaScript regexes are unfolded into
  explicit case-insensitive prefix matching, whitespace skipping, and
  alternation in source order (none of the alternations in the source can
  backtrack across alternatives on trimmed input, so leftmost-first prefix
  matching is exact).
* The per-chat lock table (`acquireLock`, lines 62-78) is modelled as a
  labelled transition system over the single-threaded event loop: each call
  performs atomic segments (the re-check-and-install segment of the while
  loop, the release closure) interleaved at await points.
* `runPiWithStreaming` (lines 156-266) is modelled as an interpreter folding
  a list of event-loop events (stdout data, stderr data, interval ticks,
  close, spawn error, timeout firing) over the closure state of the
  `new Promise` executor; promise resolution is single-assignment.
* `extractImagesFromSession` (lines 306-360) is modelled over the list of
  JSON parse results of the transcript lines (a failed `JSON.parse` is
  `none`); base64 decoding / `Buffer.from` is abstracted, payloads are
  carried as parsed JSON values.
* `getFileList` / `detectNewFiles` / `snapshotWorkspace` (file-detector
  module) are modelled over directory listings: a directory read is
  `Option (List DirEntry)` (`none` = readdir threw), a `stat` result is
  `Option Nat` (`none` = stat threw).
-/

/-! ## Activity classifier (pi-runner.ts lines 16-60) -/

inductive ActivityType
| thinking
| reading
| writing
| running
| searching
| working
deriving DecidableEq, Repr

structure Activity where
  type : ActivityType
  detail : String
deriving DecidableEq, Repr

/-- Whitespace as matched by the JavaScript `\s` class and `String.trim`
(ASCII fragment; the repository feeds it lines of process output). -/
def jsWS (c : Char) : Bool :=
  c = ' ' || c = '\t' || c = '\n' || c = '\r' || c = '\x0b' || c = '\x0c'

/-- JavaScript `String.prototype.trim` on a character list. -/
def trimChars (s : List Char) : List Char :=
  ((s.dropWhile jsWS).reverse.dropWhile jsWS).reverse

/-- Case-insensitive literal prefix match: `stripCI pat s` returns the
remainder of `s` after `pat` when `pat` (compared lowercase) is a prefix. -/
def stripCI : List Char → List Char → Option (List Char)
| [], s => some s
| _ :: _, [] => none
| p :: ps, c :: cs => if p.toLower = c.toLower then stripCI ps cs else none

/-- Leftmost-first alternation over literal alternatives, as in the
JavaScript regex groups `(Reading|Read)` etc. -/
def firstAlt : List (List Char) → List Char → Option (List Char)
| [], _ => none
| p :: ps, s =>
  match stripCI p s with
  | some r => some r
  | none => firstAlt ps s

/-- Rule of shape `^(?:V1|...|Vn)\s+(.+)` (the reading and writing rules):
the verb must be followed by at least one whitespace character; the detail
is the remainder after the greedy whitespace run.  Returns `none` when the
rule does not match.  (On trimmed input the remainder after a matched
`\s+` is never all-whitespace, so greedy matching without backtracking is
exact.) -/
def ruleVerbWS (verbs : List (List Char)) (t : List Char) : Option (List Char) :=
  match firstAlt verbs t with
  | some (c :: r) => if jsWS c then some ((c :: r).dropWhile jsWS) else none
  | _ => none

/-- The shell-prompt alternative `>\s*\$` of the running rule. -/
def stripShell (s : List Char) : Option (List Char) :=
  match s with
  | '>' :: r =>
    match r.dropWhile jsWS with
    | '$' :: r2 => some r2
    | _ => none
  | _ => none

/-- Rule `^(?:Running|Executing|>\s*\$)\s*(.+)` — no whitespace is required
after the verb; the detail is the remainder after the optional whitespace
run (may be empty, in which case the source falls back to "command"). -/
def ruleRunning (t : List Char) : Option (List Char) :=
  match stripCI "running".toList t with
  | some r => some (r.dropWhile jsWS)
  | none =>
    match stripCI "executing".toList t with
    | some r => some (r.dropWhile jsWS)
    | none =>
      match stripShell t with
      | some r => some (r.dropWhile jsWS)
      | none => none

/-- Test `^(?:V1|...|Vn)` — bare prefix test (searching and thinking rules). -/
def anyPrefixCI (verbs : List (List Char)) (t : List Char) : Bool :=
  (firstAlt verbs t).isSome

def readingVerbs : List (List Char) := ["reading".toList, "read".toList]
def writingVerbs : List (List Char) :=
  ["writing".toList, "wrote".toList, "creating".toList, "created".toList]
def searchingVerbs : List (List Char) :=
  ["searching".toList, "search".toList, "looking".toList, "finding".toList]
def thinkingVerbs : List (List Char) :=
  ["thinking".toList, "analyzing".toList, "processing".toList]

/-- The rule chain of `detectActivity` on the already-trimmed line.  The
rules are tried in source order; the first matching rule wins; a blank or
unmatched line yields `none`.  `match?.[1] || "file"` / `|| "command"`
becomes the fallback on an empty extracted detail. -/
def classifyTrimmed (t : List Char) : Option Activity :=
  if t = [] then none
  else
    match ruleVerbWS readingVerbs t with
    | some d =>
      some { type := .reading, detail := if d = [] then "file" else d.asString }
    | none =>
    match ruleVerbWS writingVerbs t with
    | some d =>
      some { type := .writing, detail := if d = [] then "file" else d.asString }
    | none =>
    match ruleRunning t with
    | some d =>
      some { type := .running,
             detail := if d = [] then "command" else (d.take 50).asString }
    | none =>
    if anyPrefixCI searchingVerbs t then
      some { type := .searching, detail := "codebase" }
    else if anyPrefixCI thinkingVerbs t then
      some { type := .thinking, detail := "" }
    else none

/-- Translation of `detectActivity` (pi-runner.ts lines 33-60) on the
character list of the line: trim, then apply the rule chain. -/
def detectActivityCore (line : List Char) : Option Activity :=
  classifyTrimmed (trimChars line)

/-- Source-named entry point of the classifier on strings. -/
def detectActivity (line : String) : Option Activity :=
  detectActivityCore line.toList

example : detectActivity "Reading src/main.ts" =
    some { type := .reading, detail := "src/main.ts" } := by decide
example : detectActivity "  wrote foo.txt  " =
    some { type := .writing, detail := "foo.txt" } := by decide
example : detectActivity "Running" =
    some { type := .running, detail := "command" } := by decide
example : detectActivity "> $ ls -la" =
    some { type := .running, detail := "ls -la" } := by decide
example : detectActivity "Searching for the bug" =
    some { type := .searching, detail := "codebase" } := by decide
example : detectActivity "Analyzing the repo" =
    some { type := .thinking, detail := "" } := by decide
example : detectActivity "   " = none := by decide
example : detectActivity "hello world" = none := by decide
example : detectActivity "Reads the file" = none := by decide

/-! ## Conversation lock table (pi-runner.ts lines 62-78)

`acquireLock` runs on a single-threaded event loop.  Its atomic segments
are: the final re-check of `while (locks.has(chatId))` together with the
`locks.set` that installs the caller's fresh promise (no await between
them), and the returned release closure `locks.delete(chatId); release?.()`.
A blocked caller awaits the promise currently in the map; `release` deletes
the map entry before resolving, and the awaiting callers are rescheduled
only after the releasing task's synchronous code finishes.

The model: call identifiers are naturals; `key i` is the chatId the call
locks on; the promise a call installs is identified with the call itself.
The phases of a call in `runPi` / `runPiWithStreaming` are:

* `idle` — has not yet executed the check-and-install segment;
* `waiting p` — suspended awaiting the promise of call `p`;
* `holding` — lock acquired, process not yet spawned;
* `spawned` — process spawned, `RunResult` not yet resolved;
* `resulted` — `RunResult` resolved, release not yet run;
* `released` — the release closure has run (its promise is resolved).

`Act.release2` models invoking the release handle a second time, which the
closure permits (it is the subject of claim C3); `runPi` itself calls the
handle exactly once, in its `finally` block. -/

inductive Phase
| idle
| waiting (p : Nat)
| holding
| spawned
| resulted
| released
deriving DecidableEq, Repr

structure LockSys where
  locks : Nat → Option Nat
  phase : Nat → Phase

inductive Act
| tryAcq (i : Nat)
| wake (i : Nat)
| spawn (i : Nat)
| result (i : Nat)
| release (i : Nat)
| release2 (i : Nat)
deriving DecidableEq, Repr

def initSys : LockSys := { locks := fun _ => none, phase := fun _ => .idle }

/-- Call phases during which the call holds the conversation lock. -/
def busy : Phase → Bool
| .holding => true
| .spawned => true
| .resulted => true
| _ => false

/-- The check-and-install segment of `acquireLock`: if the map has no entry
for the caller's chatId, install the caller's fresh promise and return with
the lock held; otherwise suspend on the promise found in the map. -/
def attemptAcq (key : Nat → Nat) (s : LockSys) (i : Nat) : LockSys :=
  match s.locks (key i) with
  | none =>
    { locks := Function.update s.locks (key i) (some i),
      phase := Function.update s.phase i .holding }
  | some p => { s with phase := Function.update s.phase i (.waiting p) }

/-- One atomic event-loop segment of the lock protocol.  Disabled actions
leave the state unchanged (an event that cannot occur does not occur). -/
def lockStep (key : Nat → Nat) (s : LockSys) : Act → LockSys
| .tryAcq i =>
  if s.phase i = .idle then attemptAcq key s i else s
| .wake i =>
  match s.phase i with
  | .waiting p => if s.phase p = .released then attemptAcq key s i else s
  | _ => s
| .spawn i =>
  if s.phase i = .holding then { s with phase := Function.update s.phase i .spawned }
  else s
| .result i =>
  if s.phase i = .spawned then { s with phase := Function.update s.phase i .resulted }
  else s
| .release i =>
  if s.phase i = .resulted then
    { locks := Function.update s.locks (key i) none,
      phase := Function.update s.phase i .released }
  else s
| .release2 i =>
  if s.phase i = .released then
    { s with locks := Function.update s.locks (key i) none }
  else s

/-- Run the lock system from the initial state over a list of events. -/
def runLock (key : Nat → Nat) (acts : List Act) : LockSys :=
  acts.foldl (lockStep key) initSys

/-- Lock-table invariant: every installed entry belongs to a busy call on
that chatId, and every busy call has its own entry installed. -/
def LockInv (key : Nat → Nat) (s : LockSys) : Prop :=
  (∀ k i, s.locks k = some i → key i = k ∧ busy (s.phase i) = true) ∧
  (∀ i, busy (s.phase i) = true → s.locks (key i) = some i)

theorem lockInv_init (key : Nat → Nat) : LockInv key initSys := by
  constructor
  · intro k i h
    simp [initSys] at h
  · intro i h
    simp [initSys, busy] at h
theorem lockInv_attempt (key : Nat → Nat) (s : LockSys) (i : Nat)
    (hinv : LockInv key s) (hnb : busy (s.phase i) = false) :
    LockInv key (attemptAcq key s i) := by
  obtain ⟨h1, h2⟩ := hinv
  unfold attemptAcq
  cases hl : s.locks (key i) with
  | none =>
    constructor
    · intro k j hj
      dsimp only at hj ⊢
      by_cases hk : k = key i
      · subst hk
        rw [Function.update_same] at hj
        injection hj with hj2
        subst hj2
        rw [Function.update_same]
        exact ⟨rfl, rfl⟩
      · rw [Function.update_noteq hk] at hj
        have hkj := h1 k j hj
        refine ⟨hkj.1, ?_⟩
        by_cases hji : j = i
        · subst hji
          rw [hkj.1] at hk
          exact absurd rfl hk
        · rw [Function.update_noteq hji]
          exact hkj.2
    · intro j hj
      dsimp only at hj ⊢
      by_cases hji : j = i
      · subst hji
        rw [Function.update_same]
      · rw [Function.update_noteq hji] at hj
        have hjl := h2 j hj
        by_cases hkj : key j = key i
        · rw [hkj, hl] at hjl
          exact absurd hjl (by simp)
        · rw [Function.update_noteq hkj]
          exact hjl
  | some p =>
    constructor
    · intro k j hj
      dsimp only at hj ⊢
      have hkj := h1 k j hj
      refine ⟨hkj.1, ?_⟩
      by_cases hji : j = i
      · subst hji
        rw [hkj.2] at hnb
        exact absurd hnb (by simp)
      · rw [Function.update_noteq hji]
        exact hkj.2
    · intro j hj
      dsimp only at hj ⊢
      by_cases hji : j = i
      · subst hji
        rw [Function.update_same] at hj
        simp [busy] at hj
      · rw [Function.update_noteq hji] at hj
        exact h2 j hj

theorem lockInv_phaseKeep (key : Nat → Nat) (s : LockSys) (i : Nat) (ph2 : Phase)
    (hinv : LockInv key s) (hold : busy (s.phase i) = true) (hnew : busy ph2 = true) :
    LockInv key { s with phase := Function.update s.phase i ph2 } := by
  obtain ⟨h1, h2⟩ := hinv
  constructor
  · intro k j hj
    dsimp only at hj ⊢
    have hkj := h1 k j hj
    refine ⟨hkj.1, ?_⟩
    by_cases hji : j = i
    · subst hji
      rw [Function.update_same]
      exact hnew
    · rw [Function.update_noteq hji]
      exact hkj.2
  · intro j hj
    dsimp only at hj ⊢
    by_cases hji : j = i
    · subst hji
      exact h2 j hold
    · rw [Function.update_noteq hji] at hj
      exact h2 j hj

theorem lockInv_step (key : Nat → Nat) (s : LockSys) (a : Act)
    (hinv : LockInv key s) (hna : ∀ i, a ≠ .release2 i) :
    LockInv key (lockStep key s a) := by
  obtain ⟨h1, h2⟩ := hinv
  cases a with
  | tryAcq i =>
    by_cases hp : s.phase i = .idle
    · have hg : lockStep key s (.tryAcq i) = attemptAcq key s i := by
        simp [lockStep, hp]
      rw [hg]
      exact lockInv_attempt key s i ⟨h1, h2⟩ (by rw [hp]; rfl)
    · have hg : lockStep key s (.tryAcq i) = s := by simp [lockStep, hp]
      rw [hg]
      exact ⟨h1, h2⟩
  | wake i =>
    cases hp : s.phase i with
    | waiting p =>
      by_cases hr : s.phase p = .released
      · have hg : lockStep key s (.wake i) = attemptAcq key s i := by
          simp [lockStep, hp, hr]
        rw [hg]
        exact lockInv_attempt key s i ⟨h1, h2⟩ (by rw [hp]; rfl)
      · have hg : lockStep key s (.wake i) = s := by simp [lockStep, hp, hr]
        rw [hg]
        exact ⟨h1, h2⟩
    | idle =>
      have hg : lockStep key s (.wake i) = s := by simp [lockStep, hp]
      rw [hg]; exact ⟨h1, h2⟩
    | holding =>
      have hg : lockStep key s (.wake i) = s := by simp [lockStep, hp]
      rw [hg]; exact ⟨h1, h2⟩
    | spawned =>
      have hg : lockStep key s (.wake i) = s := by simp [lockStep, hp]
      rw [hg]; exact ⟨h1, h2⟩
    | resulted =>
      have hg : lockStep key s (.wake i) = s := by simp [lockStep, hp]
      rw [hg]; exact ⟨h1, h2⟩
    | released =>
      have hg : lockStep key s (.wake i) = s := by simp [lockStep, hp]
      rw [hg]; exact ⟨h1, h2⟩
  | spawn i =>
    by_cases hp : s.phase i = .holding
    · have hg : lockStep key s (.spawn i) =
          { s with phase := Function.update s.phase i .spawned } := by
        simp [lockStep, hp]
      rw [hg]
      exact lockInv_phaseKeep key s i .spawned ⟨h1, h2⟩ (by rw [hp]; rfl) rfl
    · have hg : lockStep key s (.spawn i) = s := by simp [lockStep, hp]
      rw [hg]; exact ⟨h1, h2⟩
  | result i =>
    by_cases hp : s.phase i = .spawned
    · have hg : lockStep key s (.result i) =
          { s with phase := Function.update s.phase i .resulted } := by
        simp [lockStep, hp]
      rw [hg]
      exact lockInv_phaseKeep key s i .resulted ⟨h1, h2⟩ (by rw [hp]; rfl) rfl
    · have hg : lockStep key s (.result i) = s := by simp [lockStep, hp]
      rw [hg]; exact ⟨h1, h2⟩
  | release i =>
    by_cases hp : s.phase i = .resulted
    · have hg : lockStep key s (.release i) =
          { locks := Function.update s.locks (key i) none,
            phase := Function.update s.phase i .released } := by
        simp [lockStep, hp]
      rw [hg]
      constructor
      · intro k j hj
        dsimp only at hj ⊢
        by_cases hk : k = key i
        · subst hk
          rw [Function.update_same] at hj
          exact absurd hj (by simp)
        · rw [Function.update_noteq hk] at hj
          have hkj := h1 k j hj
          refine ⟨hkj.1, ?_⟩
          by_cases hji : j = i
          · subst hji
            rw [hkj.1] at hk
            exact absurd rfl hk
          · rw [Function.update_noteq hji]
            exact hkj.2
      · intro j hj
        dsimp only at hj ⊢
        by_cases hji : j = i
        · subst hji
          rw [Function.update_same] at hj
          simp [busy] at hj
        · rw [Function.update_noteq hji] at hj
          have hjl := h2 j hj
          by_cases hkj : key j = key i
          · have hil : s.locks (key i) = some i := h2 i (by rw [hp]; rfl)
            rw [hkj, hil] at hjl
            injection hjl with hji2
            exact absurd hji2.symm hji
          · rw [Function.update_noteq hkj]
            exact hjl
    · have hg : lockStep key s (.release i) = s := by simp [lockStep, hp]
      rw [hg]; exact ⟨h1, h2⟩
  | release2 i => exact absurd rfl (hna i)

theorem lockInv_run (key : Nat → Nat) (acts : List Act)
    (hna : ∀ i, Act.release2 i ∉ acts) : LockInv key (runLock key acts) := by
  suffices h : ∀ (l : List Act) (s : LockSys), LockInv key s →
      (∀ i, Act.release2 i ∉ l) → LockInv key (l.foldl (lockStep key) s) by
    exact h acts initSys (lockInv_init key) hna
  intro l
  induction l with
  | nil => intro s hs _; exact hs
  | cons a rest ih =>
    intro s hs hnot
    simp only [List.foldl_cons]
    apply ih
    · apply lockInv_step key s a hs
      intro i hi
      exact hnot i (by rw [hi]; exact List.mem_cons_self _ _)
    · intro i hi
      exact hnot i (List.mem_cons_of_mem _ hi)

/-- The call a lock-protocol event belongs to. -/
def actCall : Act → Nat
| .tryAcq i => i
| .wake i => i
| .spawn i => i
| .result i => i
| .release i => i
| .release2 i => i

theorem attemptAcq_locks_other (key : Nat → Nat) (s : LockSys) (i k : Nat)
    (hk : k ≠ key i) : (attemptAcq key s i).locks k = s.locks k := by
  unfold attemptAcq
  cases s.locks (key i) with
  | none =>
    dsimp only
    rw [Function.update_noteq hk]
  | some p => rfl

/-- C1.  Serialization per conversation key, and independence of distinct
keys, for the `acquireLock`-guarded runs of `runPi` / `runPiWithStreaming`
(both guard the spawn-to-result window identically, pi-runner.ts lines
90-149 and 164-265; each calls its release handle exactly once, in a
`finally` block, so traces contain no `release2`).  Part 1: in every
reachable state, at most one call per chatId is inside its
lock-held window (`holding`/`spawned`/`resulted`), so the spawn-to-result
windows of two runs on the same key never overlap, and a second run's
process is spawned only after the first run's result has resolved and its
lock was released.  Part 2: a call on an uncontended key acquires
immediately, whatever the lock entries of other keys are (distinct keys
never block each other).  Part 3: no event of a call ever touches the lock
entry of a different chatId. -/
theorem runPi_serialization_and_independence :
    (∀ (key : Nat → Nat) (acts : List Act), (∀ i, Act.release2 i ∉ acts) →
      ∀ i j, busy ((runLock key acts).phase i) = true →
        busy ((runLock key acts).phase j) = true → key i = key j → i = j)
    ∧ (∀ (key : Nat → Nat) (s : LockSys) (i : Nat), s.phase i = .idle →
        s.locks (key i) = none →
        (lockStep key s (.tryAcq i)).phase i = .holding)
    ∧ (∀ (key : Nat → Nat) (s : LockSys) (a : Act) (k : Nat),
        k ≠ key (actCall a) → (lockStep key s a).locks k = s.locks k) := by
  refine ⟨?_, ?_, ?_⟩
  · intro key acts hna i j hi hj hk
    obtain ⟨h1, h2⟩ := lockInv_run key acts hna
    have hli := h2 i hi
    have hlj := h2 j hj
    rw [hk, hlj] at hli
    injection hli with h
    exact h.symm
  · intro key s i hp hl
    simp [lockStep, hp, attemptAcq, hl, Function.update_same]
  · intro key s a k hk
    cases a with
    | tryAcq i =>
      by_cases hp : s.phase i = .idle
      · have hg : lockStep key s (.tryAcq i) = attemptAcq key s i := by
          simp [lockStep, hp]
        rw [hg]
        exact attemptAcq_locks_other key s i k hk
      · have hg : lockStep key s (.tryAcq i) = s := by simp [lockStep, hp]
        rw [hg]
    | wake i =>
      cases hp : s.phase i with
      | waiting p =>
        by_cases hr : s.phase p = .released
        · have hg : lockStep key s (.wake i) = attemptAcq key s i := by
            simp [lockStep, hp, hr]
          rw [hg]
          exact attemptAcq_locks_other key s i k hk
        · have hg : lockStep key s (.wake i) = s := by simp [lockStep, hp, hr]
          rw [hg]
      | idle => have hg : lockStep key s (.wake i) = s := by simp [lockStep, hp]
                rw [hg]
      | holding => have hg : lockStep key s (.wake i) = s := by simp [lockStep, hp]
                   rw [hg]
      | spawned => have hg : lockStep key s (.wake i) = s := by simp [lockStep, hp]
                   rw [hg]
      | resulted => have hg : lockStep key s (.wake i) = s := by simp [lockStep, hp]
                    rw [hg]
      | released => have hg : lockStep key s (.wake i) = s := by simp [lockStep, hp]
                    rw [hg]
    | spawn i =>
      by_cases hp : s.phase i = .holding
      · have hg : lockStep key s (.spawn i) =
            { s with phase := Function.update s.phase i .spawned } := by
          simp [lockStep, hp]
        rw [hg]
      · have hg : lockStep key s (.spawn i) = s := by simp [lockStep, hp]
        rw [hg]
    | result i =>
      by_cases hp : s.phase i = .spawned
      · have hg : lockStep key s (.result i) =
            { s with phase := Function.update s.phase i .resulted } := by
          simp [lockStep, hp]
        rw [hg]
      · have hg : lockStep key s (.result i) = s := by simp [lockStep, hp]
        rw [hg]
    | release i =>
      by_cases hp : s.phase i = .resulted
      · have hg : lockStep key s (.release i) =
            { locks := Function.update s.locks (key i) none,
              phase := Function.update s.phase i .released } := by
          simp [lockStep, hp]
        rw [hg]
        exact Function.update_noteq hk _ _
      · have hg : lockStep key s (.release i) = s := by simp [lockStep, hp]
        rw [hg]
    | release2 i =>
      by_cases hp : s.phase i = .released
      · have hg : lockStep key s (.release2 i) =
            { s with locks := Function.update s.locks (key i) none } := by
          simp [lockStep, hp]
        rw [hg]
        exact Function.update_noteq hk _ _
      · have hg : lockStep key s (.release2 i) = s := by simp [lockStep, hp]
        rw [hg]

/-- Witness for C1: each part applied at concrete inputs. -/
theorem runPi_serialization_and_independence_witness :
    (2 : Nat) = 2
    ∧ (lockStep (fun _ => 0) initSys (.tryAcq 5)).phase 5 = Phase.holding
    ∧ (lockStep (fun _ => 0) initSys (.tryAcq 5)).locks 1 = initSys.locks 1 := by
  refine ⟨?_, ?_, ?_⟩
  · exact runPi_serialization_and_independence.1 (fun _ => 0) [.tryAcq 2]
      (fun i h => by simp at h) 2 2 (by decide) (by decide) rfl
  · exact runPi_serialization_and_independence.2.1 (fun _ => 0) initSys 5 rfl rfl
  · exact runPi_serialization_and_independence.2.2 (fun _ => 0) initSys
      (.tryAcq 5) 1 (by decide)

/-- Trace for C4: calls 0, 1, 2 all on chatId 0.  Call 1 arrives (runs its
first check of `while (locks.has(chatId))`) while call 0 holds, and awaits
call 0's promise.  Call 0 releases; before the event loop reschedules the
awaiting call 1 (microtasks run only after the releasing task's synchronous
code), a later caller 2 invokes `acquireLock` synchronously, finds the map
empty, and installs its own promise.  Call 1 then wakes to find the map
occupied and goes back to waiting — overtaken by the later-arriving call 2. -/
def c4Trace : List Act :=
  [.tryAcq 0, .tryAcq 1, .spawn 0, .result 0, .release 0, .tryAcq 2, .wake 1]

/-- Counterexample to C4: lock acquisition is not FIFO-fair.  In the trace
`c4Trace`, the waiter call 1 arrived before call 2, yet after the trace
call 2 holds the chatId-0 lock while call 1 is back to waiting (now on
call 2's promise): a waiter was overtaken by a later-arriving request. -/
theorem acquireLock_not_fifo_counterexample :
    (runLock (fun _ => 0) c4Trace).phase 1 = Phase.waiting 2
    ∧ (runLock (fun _ => 0) c4Trace).phase 2 = Phase.holding := by decide

/-- C4 (amended).  At most one outstanding lock per chatId at any instant:
in every reachable state of the single-release protocol, the lock-table
entry of a chatId, when present, names the unique lock-holding call on that
chatId.  (The FIFO-fairness part of the claim is false, see
`acquireLock_not_fifo_counterexample`: a caller invoking `acquireLock`
between a release and the rescheduling of earlier waiters is granted the
lock immediately, overtaking them.) -/
theorem acquireLock_single_holder :
    ∀ (key : Nat → Nat) (acts : List Act), (∀ i, Act.release2 i ∉ acts) →
      ∀ k i, (runLock key acts).locks k = some i →
        key i = k ∧ busy ((runLock key acts).phase i) = true ∧
        ∀ j, busy ((runLock key acts).phase j) = true → key j = k → j = i := by
  intro key acts hna k i hl
  obtain ⟨h1, h2⟩ := lockInv_run key acts hna
  obtain ⟨hk, hb⟩ := h1 k i hl
  refine ⟨hk, hb, ?_⟩
  intro j hj hkj
  have hlj := h2 j hj
  rw [hkj, hl] at hlj
  injection hlj with h
  exact h.symm

/-- Witness for C4 (amended) at the one-step trace `[tryAcq 0]`. -/
theorem acquireLock_single_holder_witness :
    (0 : Nat) = 0
    ∧ busy ((runLock (fun _ => 0) [.tryAcq 0]).phase 0) = true
    ∧ (0 : Nat) = 0 := by
  have h := acquireLock_single_holder (fun _ => 0) [.tryAcq 0]
    (fun i hh => by simp at hh) 0 0 (by decide)
  exact ⟨h.1, h.2.1, h.2.2 0 h.2.1 h.1⟩

/-- Trace for C3, part 1: call 0 acquires chatId 0, runs, releases; then
call 1 acquires the same chatId.  The lock table now holds call 1's promise. -/
def c3TraceA : List Act := [.tryAcq 0, .spawn 0, .result 0, .release 0, .tryAcq 1]

/-- Trace for C3, part 2: call 0's release handle is invoked a second time
(`locks.delete(chatId); release?.()` runs again). -/
def c3TraceB : List Act := c3TraceA ++ [.release2 0]

/-- Trace for C3, part 3: with the entry gone, a third caller acquires the
chatId while call 1 still holds it, and both spawn. -/
def c3TraceC : List Act := c3TraceB ++ [.tryAcq 2, .spawn 2, .spawn 1]

/-- Counterexample to C3: the release handle returned by `acquireLock` is
not idempotent.  After `c3TraceA` the chatId-0 entry is call 1's promise;
the second invocation of call 0's release handle (`c3TraceB`) executes
`locks.delete(chatId)` unconditionally and removes the subsequent holder's
entry (the table changes from `some 1` to `none`); consequently
(`c3TraceC`) a third caller acquires the same chatId while call 1 is still
inside its lock-held window — per-key mutual exclusion is broken. -/
theorem release_not_idempotent_counterexample :
    (runLock (fun _ => 0) c3TraceA).locks 0 = some 1
    ∧ (runLock (fun _ => 0) c3TraceB).locks 0 = none
    ∧ busy ((runLock (fun _ => 0) c3TraceC).phase 1) = true
    ∧ busy ((runLock (fun _ => 0) c3TraceC).phase 2) = true := by decide

/-- C3 (amended).  A second invocation of the release handle deletes
whatever lock-table entry currently occupies the handle's chatId — possibly
one installed by a subsequent holder, breaking mutual exclusion (see
`release_not_idempotent_counterexample`) — and re-resolves its own
already-resolved promise, a no-op.  It is idempotent precisely in the
uncontended case: when no subsequent holder has installed an entry for the
chatId, the repeated invocation leaves the whole lock system unchanged. -/
theorem release_second_call_uncontended_noop :
    ∀ (key : Nat → Nat) (s : LockSys) (i : Nat), s.phase i = .released →
      s.locks (key i) = none → lockStep key s (.release2 i) = s := by
  intro key s i hp hl
  have hg : lockStep key s (.release2 i) =
      { s with locks := Function.update s.locks (key i) none } := by
    simp [lockStep, hp]
  rw [hg]
  have hupd : Function.update s.locks (key i) none = s.locks := by
    funext k
    by_cases hk : k = key i
    · subst hk
      rw [Function.update_same, hl]
    · rw [Function.update_noteq hk]
  rw [hupd]

/-- Witness for C3 (amended): after call 0 acquired, ran and released on an
otherwise untouched table, invoking its release handle a second time leaves
the state unchanged. -/
theorem release_second_call_uncontended_noop_witness :
    lockStep (fun _ => 0)
      (runLock (fun _ => 0) [.tryAcq 0, .spawn 0, .result 0, .release 0])
      (.release2 0)
    = runLock (fun _ => 0) [.tryAcq 0, .spawn 0, .result 0, .release 0] :=
  release_second_call_uncontended_noop (fun _ => 0)
    (runLock (fun _ => 0) [.tryAcq 0, .spawn 0, .result 0, .release 0]) 0
    (by decide) (by decide)

/-! ## Streaming process runner (pi-runner.ts lines 84-150 and 156-266)

`runPiWithStreaming` wires handlers onto a spawned process inside a
`new Promise` executor; the handlers run as atomic event-loop tasks over
the closure state (`stdout`, `stderr`, `lineBuffer`, `lastActivity`, the
interval, the promise).  A run is interpreted as a fold of the handler
bodies over the list of events the event loop delivers: stdout `data`
chunks, stderr `data` chunks, interval ticks, the `close` event, the
`error` event, and the firing of the `setTimeout` timer (which the source
never cancels).  Promise resolution is single-assignment — the first
`resolve` wins — but the handlers themselves keep running: the `onActivity`
callback is invoked directly, not through the promise.  Emissions to the
caller (activity callbacks and the terminal result) are logged in order.
Times are absolute milliseconds with run start at 0, so
`Math.floor((Date.now() - startTime) / 1000)` is `t / 1000`. -/

structure RunResult where
  output : String
  error : Option String
deriving DecidableEq, Repr

structure ActivityUpdate where
  type : ActivityType
  detail : String
  elapsed : Nat
deriving DecidableEq, Repr

inductive Emission
| activity (a : ActivityUpdate)
| result (r : RunResult)
deriving DecidableEq, Repr

inductive RunEvent
| data (chunk : List Char) (t : Nat)
| errData (chunk : List Char) (t : Nat)
| tick (t : Nat)
| close (code : Option Int) (t : Nat)
| procError (msg : String) (t : Nat)
| timeoutFire (t : Nat)
deriving DecidableEq, Repr

structure RunState where
  stdout : List Char
  stderr : List Char
  lineBuffer : List Char
  lastActivity : Option ActivityUpdate
  intervalActive : Bool
  resolvedResult : Option RunResult
  killed : List String
  log : List Emission
deriving Repr

def initRun : RunState :=
  { stdout := [], stderr := [], lineBuffer := [], lastActivity := none,
    intervalActive := true, resolvedResult := none, killed := [], log := [] }

/-- The result computed by the `close` handler (lines 129-135 of `runPi`
and 245-249 of `runPiWithStreaming`): `if (code !== 0 && stderr)` produce
`{output: stdout || "Error occurred", error: stderr}`, else
`{output: stdout || "(no output)"}`.  A `null` close code (process killed
by a signal) satisfies `code !== 0`. -/
def resolveOnClose (code : Option Int) (stdout stderr : List Char) : RunResult :=
  if code ≠ some 0 ∧ stderr ≠ [] then
    { output := if stdout = [] then "Error occurred" else stdout.asString,
      error := some stderr.asString }
  else
    { output := if stdout = [] then "(no output)" else stdout.asString,
      error := none }

/-- JavaScript `String.prototype.split("\n")`: `n` separators yield `n+1`
parts, empty parts preserved. -/
def splitNl : List Char → List (List Char)
| [] => [[]]
| c :: rest =>
  if c = '\n' then [] :: splitNl rest
  else
    match splitNl rest with
    | p :: ps => (c :: p) :: ps
    | [] => [[c]]

theorem splitNl_ne_nil (s : List Char) : splitNl s ≠ [] := by
  cases s with
  | nil => simp [splitNl]
  | cons c rest =>
    simp only [splitNl]
    by_cases h : c = '\n'
    · simp [h]
    · simp only [if_neg h]
      cases splitNl rest with
      | nil => simp
      | cons p ps => simp

/-- Translation of `processLine` (lines 205-212): classify the line, and on
a match record it as `lastActivity` and deliver it to `onActivity`. -/
def processLine (t : Nat) (st : RunState) (line : List Char) : RunState :=
  match detectActivityCore line with
  | some a =>
    let u : ActivityUpdate := { type := a.type, detail := a.detail, elapsed := t / 1000 }
    { st with lastActivity := some u, log := st.log ++ [.activity u] }
  | none => st

/-- Promise resolution: the first `resolve` wins, later calls are no-ops. -/
def resolveWith (st : RunState) (r : RunResult) : RunState :=
  match st.resolvedResult with
  | some _ => st
  | none => { st with resolvedResult := some r, log := st.log ++ [.result r] }

/-- One event-loop task of `runPiWithStreaming` (lines 190-262).

* stdout `data` (lines 214-225): append the chunk to `stdout` and
  `lineBuffer`, split the buffer on newlines, keep the trailing partial
  line, classify each complete line;
* stderr `data` (lines 227-229): append to `stderr`;
* interval tick (lines 232-237): if the interval has not been cleared and
  there is no classified activity yet, or more than 5 seconds have elapsed
  since the last one, emit a synthetic `working` update (which does not
  update `lastActivity`);
* `close` (lines 239-250): clear the interval, flush a non-empty trailing
  buffer through the classifier, then resolve via `resolveOnClose`;
* `error` (lines 252-255): clear the interval and resolve the spawn
  failure;
* the `setTimeout` callback (lines 257-261): clear the interval, send
  SIGTERM, and resolve `{output: stdout || "", error: "Timeout: Pi took
  too long"}`.  Note the timer is never cancelled and the stream handlers
  stay attached after resolution. -/
def runStep (st : RunState) : RunEvent → RunState
| .data chunk t =>
  let st1 := { st with stdout := st.stdout ++ chunk,
                       lineBuffer := st.lineBuffer ++ chunk }
  let parts := splitNl st1.lineBuffer
  let st2 := { st1 with lineBuffer := parts.getLastD [] }
  parts.dropLast.foldl (processLine t) st2
| .errData chunk _ => { st with stderr := st.stderr ++ chunk }
| .tick t =>
  if st.intervalActive then
    let elapsed := t / 1000
    match st.lastActivity with
    | none =>
      { st with log := st.log ++ [.activity { type := .working, detail := "", elapsed := elapsed }] }
    | some la =>
      if elapsed - la.elapsed > 5 then
        { st with log := st.log ++ [.activity { type := .working, detail := "", elapsed := elapsed }] }
      else st
  else st
| .close code t =>
  let st1 := { st with intervalActive := false }
  let st2 := if st1.lineBuffer ≠ [] then processLine t st1 st1.lineBuffer else st1
  resolveWith st2 (resolveOnClose code st2.stdout st2.stderr)
| .procError msg _ =>
  let st1 := { st with intervalActive := false }
  resolveWith st1 { output := "", error := some ("Failed to start Pi: " ++ msg) }
| .timeoutFire _ =>
  let st1 := { st with intervalActive := false, killed := st.killed ++ ["SIGTERM"] }
  resolveWith st1 { output := if st.stdout = [] then "" else st.stdout.asString,
                    error := some "Timeout: Pi took too long" }

/-- Interpret one run of `runPiWithStreaming` over a delivered event list. -/
def runStream (evs : List RunEvent) : RunState := evs.foldl runStep initRun

def evTime : RunEvent → Nat
| .data _ t => t
| .errData _ t => t
| .tick t => t
| .close _ t => t
| .procError _ t => t
| .timeoutFire t => t

/-- Events whose handler calls `resolve`. -/
def isResolver : RunEvent → Bool
| .close _ _ => true
| .procError _ _ => true
| .timeoutFire _ => true
| _ => false

def dataChunk : RunEvent → Option (List Char)
| .data c _ => some c
| _ => none

def errChunk : RunEvent → Option (List Char)
| .errData c _ => some c
| _ => none

/-- Elapsed values of the activity emissions of a log, in emission order. -/
def activityElapsed (l : List Emission) : List Nat :=
  l.filterMap fun e =>
    match e with
    | .activity a => some a.elapsed
    | .result _ => none

def timesMonotone : List RunEvent → Bool
| [] => true
| [_] => true
| e1 :: e2 :: rest => decide (evTime e1 ≤ evTime e2) && timesMonotone (e2 :: rest)

/-- After `close` or the spawn `error` event, the process streams are done:
only the uncancelled `setTimeout` timer may still fire. -/
def noStreamAfterEnd : List RunEvent → Bool
| [] => true
| e :: rest =>
  match e with
  | .close _ _ => rest.all fun e2 => match e2 with | .timeoutFire _ => true | _ => false
  | .procError _ _ => rest.all fun e2 => match e2 with | .timeoutFire _ => true | _ => false
  | _ => noStreamAfterEnd rest

/-- Sanity conditions a real delivered-event list satisfies: times are
non-decreasing; `close` and `error` each fire at most once and nothing
flows on the streams afterwards (only the uncancelled timer may still
fire); the timer fires at most once, at the configured timeout. -/
def wellFormedTrace (timeoutMs : Nat) (evs : List RunEvent) : Bool :=
  timesMonotone evs &&
  noStreamAfterEnd evs &&
  evs.all (fun e => match e with | .timeoutFire t => decide (t = timeoutMs) | _ => true) &&
  decide ((evs.filter fun e => match e with | .close _ _ => true | _ => false).length ≤ 1) &&
  decide ((evs.filter fun e => match e with | .procError _ _ => true | _ => false).length ≤ 1) &&
  decide ((evs.filter fun e => match e with | .timeoutFire _ => true | _ => false).length ≤ 1)

example : (runStream [.data "Hi there".toList 500, .close (some 0) 600]).resolvedResult =
    some { output := "Hi there", error := none } := by decide
example : (runStream [.errData "boom".toList 100, .close (some 1) 200]).resolvedResult =
    some { output := "Error occurred", error := some "boom" } := by decide
example : (runStream [.timeoutFire 100]).resolvedResult =
    some { output := "", error := some "Timeout: Pi took too long" }
    ∧ "SIGTERM" ∈ (runStream [.timeoutFire 100]).killed := by decide
example : (runStream [.data "Reading a\nWriting b\n".toList 2500, .close (some 0) 3000]).log =
    [.activity { type := .reading, detail := "a", elapsed := 2 },
     .activity { type := .writing, detail := "b", elapsed := 2 },
     .result { output := "Reading a\nWriting b\n", error := none }] := by decide
example : (runStream [.tick 5000, .close (some 0) 6000]).log =
    [.activity { type := .working, detail := "", elapsed := 5 },
     .result { output := "(no output)", error := none }] := by decide

theorem processLine_fields (t : Nat) (st : RunState) (line : List Char) :
    (processLine t st line).stdout = st.stdout
    ∧ (processLine t st line).stderr = st.stderr
    ∧ (processLine t st line).lineBuffer = st.lineBuffer
    ∧ (processLine t st line).resolvedResult = st.resolvedResult
    ∧ (processLine t st line).killed = st.killed
    ∧ (processLine t st line).intervalActive = st.intervalActive := by
  unfold processLine
  cases detectActivityCore line with
  | some a => exact ⟨rfl, rfl, rfl, rfl, rfl, rfl⟩
  | none => exact ⟨rfl, rfl, rfl, rfl, rfl, rfl⟩

theorem processLines_fields (t : Nat) (lines : List (List Char)) (st : RunState) :
    (lines.foldl (processLine t) st).stdout = st.stdout
    ∧ (lines.foldl (processLine t) st).stderr = st.stderr
    ∧ (lines.foldl (processLine t) st).lineBuffer = st.lineBuffer
    ∧ (lines.foldl (processLine t) st).resolvedResult = st.resolvedResult
    ∧ (lines.foldl (processLine t) st).killed = st.killed := by
  induction lines generalizing st with
  | nil => exact ⟨rfl, rfl, rfl, rfl, rfl⟩
  | cons l rest ih =>
    simp only [List.foldl_cons]
    have h1 := processLine_fields t st l
    have h2 := ih (processLine t st l)
    exact ⟨h2.1.trans h1.1, h2.2.1.trans h1.2.1, h2.2.2.1.trans h1.2.2.1,
      h2.2.2.2.1.trans h1.2.2.2.1, h2.2.2.2.2.trans h1.2.2.2.2.1⟩

theorem resolveWith_none (st : RunState) (r : RunResult)
    (h : st.resolvedResult = none) :
    resolveWith st r =
      { st with resolvedResult := some r, log := st.log ++ [.result r] } := by
  unfold resolveWith
  rw [h]

theorem resolveWith_resolvedResult_some (st : RunState) (r0 r : RunResult)
    (h : st.resolvedResult = some r) :
    (resolveWith st r0).resolvedResult = some r := by
  unfold resolveWith
  rw [h]
  exact h

/-- Once the promise is resolved, every later event leaves it resolved with
the same result. -/
theorem runStep_resolved_persist (st : RunState) (e : RunEvent) (r : RunResult)
    (h : st.resolvedResult = some r) :
    (runStep st e).resolvedResult = some r := by
  cases e with
  | data chunk t =>
    simp only [runStep]
    rw [(processLines_fields t _ _).2.2.2.1]
    exact h
  | errData chunk t => exact h
  | tick t =>
    simp only [runStep]
    by_cases hi : st.intervalActive
    · simp only [hi, if_pos rfl]
      cases st.lastActivity with
      | none => exact h
      | some la =>
        by_cases h5 : t / 1000 - la.elapsed > 5
        · simp only [h5, if_pos rfl]; exact h
        · simp only [if_neg h5]; exact h
    · simp only [if_neg hi]; exact h
  | close code t =>
    simp only [runStep]
    by_cases hb : st.lineBuffer ≠ []
    · simp only [if_pos hb]
      have hres : (processLine t { st with intervalActive := false }
          st.lineBuffer).resolvedResult = some r := by
        rw [(processLine_fields t _ _).2.2.2.1]
        exact h
      exact resolveWith_resolvedResult_some _ _ r hres
    · simp only [if_neg hb]
      exact resolveWith_resolvedResult_some _ _ r h
  | procError msg t =>
    simp only [runStep]
    exact resolveWith_resolvedResult_some _ _ r h
  | timeoutFire t =>
    simp only [runStep]
    exact resolveWith_resolvedResult_some _ _ r h

theorem runFold_resolved_persist (evs : List RunEvent) (st : RunState)
    (r : RunResult) (h : st.resolvedResult = some r) :
    (evs.foldl runStep st).resolvedResult = some r := by
  induction evs generalizing st with
  | nil => exact h
  | cons e rest ih =>
    simp only [List.foldl_cons]
    exact ih (runStep st e) (runStep_resolved_persist st e r h)

/-- Events that do not resolve leave the promise and the kill list alone
and accumulate stdout/stderr chunk by chunk. -/
theorem runStep_nonresolver (st : RunState) (e : RunEvent)
    (h : isResolver e = false) :
    (runStep st e).resolvedResult = st.resolvedResult
    ∧ (runStep st e).killed = st.killed
    ∧ (runStep st e).stdout = st.stdout ++ ((dataChunk e).getD [])
    ∧ (runStep st e).stderr = st.stderr ++ ((errChunk e).getD []) := by
  cases e with
  | data chunk t =>
    have hf := processLines_fields t ((splitNl (st.lineBuffer ++ chunk)).dropLast)
      { st with stdout := st.stdout ++ chunk,
                lineBuffer := (splitNl (st.lineBuffer ++ chunk)).getLastD [] }
    refine ⟨?_, ?_, ?_, ?_⟩
    · exact hf.2.2.2.1
    · exact hf.2.2.2.2
    · rw [show (dataChunk (.data chunk t)).getD [] = chunk from rfl]
      exact hf.1
    · rw [show (errChunk (.data chunk t)).getD [] = [] from rfl, List.append_nil]
      exact hf.2.1
  | errData chunk t => simp [runStep, dataChunk, errChunk]
  | tick t =>
    unfold runStep
    by_cases hi : st.intervalActive
    · simp only [hi, if_pos rfl]
      cases st.lastActivity with
      | none => simp [dataChunk, errChunk]
      | some la =>
        by_cases h5 : t / 1000 - la.elapsed > 5
        · simp [h5, dataChunk, errChunk]
        · simp [h5, dataChunk, errChunk]
    · simp [hi, dataChunk, errChunk]
  | close code t => simp [isResolver] at h
  | procError msg t => simp [isResolver] at h
  | timeoutFire t => simp [isResolver] at h

/-- A fold over non-resolving events keeps the promise and kill list and
appends the concatenation of the delivered chunks to stdout/stderr. -/
theorem runFold_nonresolver (evs : List RunEvent) (st : RunState)
    (h : ∀ e ∈ evs, isResolver e = false) :
    (evs.foldl runStep st).resolvedResult = st.resolvedResult
    ∧ (evs.foldl runStep st).killed = st.killed
    ∧ (evs.foldl runStep st).stdout = st.stdout ++ (evs.filterMap dataChunk).flatten
    ∧ (evs.foldl runStep st).stderr = st.stderr ++ (evs.filterMap errChunk).flatten := by
  induction evs generalizing st with
  | nil => simp
  | cons e rest ih =>
    have he : isResolver e = false := h e (List.mem_cons_self _ _)
    have hrest : ∀ e2 ∈ rest, isResolver e2 = false :=
      fun e2 h2 => h e2 (List.mem_cons_of_mem _ h2)
    simp only [List.foldl_cons]
    have h1 := runStep_nonresolver st e he
    have h2 := ih (runStep st e) hrest
    refine ⟨h2.1.trans h1.1, h2.2.1.trans h1.2.1, ?_, ?_⟩
    · rw [h2.2.2.1, h1.2.2.1]
      cases e <;> simp [dataChunk]
    · rw [h2.2.2.2, h1.2.2.2]
      cases e <;> simp [errChunk]

theorem runStream_nonresolver (evs : List RunEvent)
    (h : ∀ e ∈ evs, isResolver e = false) :
    (runStream evs).resolvedResult = none
    ∧ (runStream evs).stdout = (evs.filterMap dataChunk).flatten
    ∧ (runStream evs).stderr = (evs.filterMap errChunk).flatten := by
  have h1 := runFold_nonresolver evs initRun h
  unfold runStream
  refine ⟨h1.1.trans rfl, ?_, ?_⟩
  · rw [h1.2.2.1]; rfl
  · rw [h1.2.2.2]; rfl

theorem processLine_log (t : Nat) (st : RunState) (line : List Char) :
    ∃ d, (processLine t st line).log = st.log ++ d
      ∧ ∀ x ∈ activityElapsed d, x = t / 1000 := by
  unfold processLine
  cases detectActivityCore line with
  | some a =>
    refine ⟨[.activity { type := a.type, detail := a.detail, elapsed := t / 1000 }], rfl, ?_⟩
    intro x hx
    simp [activityElapsed] at hx
    exact hx
  | none => exact ⟨[], by simp, by simp [activityElapsed]⟩

theorem processLines_log (t : Nat) (lines : List (List Char)) (st : RunState) :
    ∃ d, (lines.foldl (processLine t) st).log = st.log ++ d
      ∧ ∀ x ∈ activityElapsed d, x = t / 1000 := by
  induction lines generalizing st with
  | nil => exact ⟨[], by simp, by simp [activityElapsed]⟩
  | cons l rest ih =>
    obtain ⟨d1, h1, h1e⟩ := processLine_log t st l
    obtain ⟨d2, h2, h2e⟩ := ih (processLine t st l)
    refine ⟨d1 ++ d2, ?_, ?_⟩
    · simp only [List.foldl_cons]
      rw [h2, h1, List.append_assoc]
    · intro x hx
      unfold activityElapsed at hx
      rw [List.filterMap_append] at hx
      rcases List.mem_append.mp hx with h | h
      · exact h1e x h
      · exact h2e x h

theorem resolveWith_log (st : RunState) (r : RunResult) :
    ∃ d, (resolveWith st r).log = st.log ++ d ∧ activityElapsed d = [] := by
  unfold resolveWith
  cases st.resolvedResult with
  | some r0 => exact ⟨[], by simp, rfl⟩
  | none => exact ⟨[.result r], rfl, rfl⟩

/-- Each event-loop task appends to the emission log, and every activity it
appends carries `elapsed = t / 1000` for the task's time `t`. -/
theorem runStep_log (st : RunState) (e : RunEvent) :
    ∃ d, (runStep st e).log = st.log ++ d
      ∧ ∀ x ∈ activityElapsed d, x = evTime e / 1000 := by
  cases e with
  | data chunk t =>
    obtain ⟨d, hd, he⟩ := processLines_log t ((splitNl (st.lineBuffer ++ chunk)).dropLast)
      { st with stdout := st.stdout ++ chunk,
                lineBuffer := (splitNl (st.lineBuffer ++ chunk)).getLastD [] }
    exact ⟨d, hd, he⟩
  | errData chunk t => exact ⟨[], by simp [runStep], by simp [activityElapsed]⟩
  | tick t =>
    simp only [runStep]
    by_cases hi : st.intervalActive
    · simp only [hi, if_pos rfl]
      cases st.lastActivity with
      | none =>
        refine ⟨[.activity { type := .working, detail := "", elapsed := t / 1000 }], rfl, ?_⟩
        intro x hx
        simp [activityElapsed] at hx
        exact hx
      | some la =>
        by_cases h5 : t / 1000 - la.elapsed > 5
        · simp only [h5, if_pos rfl]
          refine ⟨[.activity { type := .working, detail := "", elapsed := t / 1000 }], rfl, ?_⟩
          intro x hx
          simp [activityElapsed] at hx
          exact hx
        · simp only [if_neg h5]
          exact ⟨[], by simp, by simp [activityElapsed]⟩
    · simp only [if_neg hi]
      exact ⟨[], by simp, by simp [activityElapsed]⟩
  | close code t =>
    simp only [runStep]
    by_cases hb : st.lineBuffer ≠ []
    · simp only [if_pos hb]
      obtain ⟨d1, hd1, he1⟩ :=
        processLine_log t { st with intervalActive := false } st.lineBuffer
      obtain ⟨d2, hd2, he2⟩ :=
        resolveWith_log (processLine t { st with intervalActive := false } st.lineBuffer) _
      refine ⟨d1 ++ d2, ?_, ?_⟩
      · rw [hd2, hd1, List.append_assoc]
      · intro x hx
        unfold activityElapsed at hx
        rw [List.filterMap_append] at hx
        rcases List.mem_append.mp hx with h | h
        · exact he1 x h
        · rw [show List.filterMap _ d2 = activityElapsed d2 from rfl, he2] at h
          exact absurd h (List.not_mem_nil x)
    · simp only [if_neg hb]
      obtain ⟨d2, hd2, he2⟩ := resolveWith_log { st with intervalActive := false } _
      refine ⟨d2, hd2, ?_⟩
      intro x hx
      rw [he2] at hx
      exact absurd hx (List.not_mem_nil x)
  | procError msg t =>
    simp only [runStep]
    obtain ⟨d2, hd2, he2⟩ := resolveWith_log { st with intervalActive := false } _
    refine ⟨d2, hd2, ?_⟩
    intro x hx
    rw [he2] at hx
    exact absurd hx (List.not_mem_nil x)
  | timeoutFire t =>
    simp only [runStep]
    obtain ⟨d2, hd2, he2⟩ := resolveWith_log
      { st with intervalActive := false, killed := st.killed ++ ["SIGTERM"] } _
    refine ⟨d2, hd2, ?_⟩
    intro x hx
    rw [he2] at hx
    exact absurd hx (List.not_mem_nil x)

theorem chain'_const (d : List Nat) (v : Nat) (h : ∀ x ∈ d, x = v) :
    List.Chain' (· ≤ ·) d := by
  induction d with
  | nil => exact List.chain'_nil
  | cons a rest ih =>
    cases rest with
    | nil => exact List.chain'_singleton a
    | cons b rest2 =>
      rw [List.chain'_cons]
      constructor
      · rw [h a (by simp), h b (by simp)]
      · exact ih (fun x hx => h x (List.mem_cons_of_mem _ hx))

theorem chain'_append_of_bound (xs ys : List Nat) (v : Nat)
    (hxs : List.Chain' (· ≤ ·) xs) (hbound : ∀ x ∈ xs, x ≤ v)
    (hys : ∀ y ∈ ys, y = v) :
    List.Chain' (· ≤ ·) (xs ++ ys) := by
  rw [List.chain'_append]
  refine ⟨hxs, chain'_const ys v hys, ?_⟩
  intro x hx y hy
  obtain ⟨hne, hxl⟩ := List.mem_getLast?_eq_getLast hx
  have hxm : x ∈ xs := by rw [hxl]; exact List.getLast_mem hne
  rw [hys y (List.mem_of_mem_head? hy)]
  exact hbound x hxm

theorem resolveWith_killed (st : RunState) (r : RunResult) :
    (resolveWith st r).killed = st.killed := by
  unfold resolveWith
  cases st.resolvedResult with
  | some r0 => rfl
  | none => rfl

theorem jsOr_empty_asString (l : List Char) :
    (if l = [] then "" else l.asString) = l.asString := by
  by_cases h : l = []
  · rw [if_pos h, h]
    decide
  · rw [if_neg h]

/-- Effect of the `close` handler when the promise is still pending. -/
theorem runStep_close_of_unresolved (st : RunState) (code : Option Int) (t : Nat)
    (h : st.resolvedResult = none) :
    (runStep st (.close code t)).resolvedResult =
        some (resolveOnClose code st.stdout st.stderr)
    ∧ (runStep st (.close code t)).log.getLast? =
        some (.result (resolveOnClose code st.stdout st.stderr)) := by
  simp only [runStep]
  by_cases hb : st.lineBuffer ≠ []
  · simp only [if_pos hb]
    have hf := processLine_fields t { st with intervalActive := false } st.lineBuffer
    have h2 : (processLine t { st with intervalActive := false }
        st.lineBuffer).resolvedResult = none := by
      rw [hf.2.2.2.1]; exact h
    rw [hf.1, hf.2.1, resolveWith_none _ _ h2]
    exact ⟨rfl, (List.getLast?_append_cons _ _ []).trans rfl⟩
  · simp only [if_neg hb]
    have h2 : ({ st with intervalActive := false } : RunState).resolvedResult = none := h
    rw [resolveWith_none _ _ h2]
    exact ⟨rfl, (List.getLast?_append_cons _ _ []).trans rfl⟩

/-- Effect of the spawn-`error` handler when the promise is still pending. -/
theorem runStep_procError_of_unresolved (st : RunState) (msg : String) (t : Nat)
    (h : st.resolvedResult = none) :
    (runStep st (.procError msg t)).resolvedResult =
        some { output := "", error := some ("Failed to start Pi: " ++ msg) }
    ∧ (runStep st (.procError msg t)).log.getLast? =
        some (.result { output := "", error := some ("Failed to start Pi: " ++ msg) }) := by
  simp only [runStep]
  have h2 : ({ st with intervalActive := false } : RunState).resolvedResult = none := h
  rw [resolveWith_none _ _ h2]
  exact ⟨rfl, (List.getLast?_append_cons _ _ []).trans rfl⟩

/-- Effect of the `setTimeout` callback when the promise is still pending. -/
theorem runStep_timeout_of_unresolved (st : RunState) (t : Nat)
    (h : st.resolvedResult = none) :
    (runStep st (.timeoutFire t)).resolvedResult =
        some { output := st.stdout.asString, error := some "Timeout: Pi took too long" }
    ∧ "SIGTERM" ∈ (runStep st (.timeoutFire t)).killed := by
  simp only [runStep]
  have h2 : ({ st with intervalActive := false, killed := st.killed ++ ["SIGTERM"] } : RunState).resolvedResult = none := h
  rw [resolveWith_none _ _ h2]
  constructor
  · dsimp only
    rw [jsOr_empty_asString]
  · simp

theorem runStep_killed_mem (st : RunState) (e : RunEvent) (x : String)
    (h : x ∈ st.killed) : x ∈ (runStep st e).killed := by
  cases e with
  | data chunk t =>
    simp only [runStep]
    rw [(processLines_fields _ _ _).2.2.2.2]
    exact h
  | errData chunk t => exact h
  | tick t =>
    simp only [runStep]
    by_cases hi : st.intervalActive
    · simp only [hi, if_pos rfl]
      cases st.lastActivity with
      | none => exact h
      | some la =>
        by_cases h5 : t / 1000 - la.elapsed > 5
        · simp only [h5, if_pos rfl]; exact h
        · simp only [if_neg h5]; exact h
    · simp only [if_neg hi]; exact h
  | close code t =>
    simp only [runStep]
    by_cases hb : st.lineBuffer ≠ []
    · simp only [if_pos hb]
      rw [resolveWith_killed, (processLine_fields _ _ _).2.2.2.2.1]
      exact h
    · simp only [if_neg hb]
      rw [resolveWith_killed]
      exact h
  | procError msg t =>
    simp only [runStep]
    rw [resolveWith_killed]
    exact h
  | timeoutFire t =>
    simp only [runStep]
    rw [resolveWith_killed]
    simp only [List.mem_append]
    exact Or.inl h

theorem runFold_killed_mem (evs : List RunEvent) (st : RunState) (x : String)
    (h : x ∈ st.killed) : x ∈ (evs.foldl runStep st).killed := by
  induction evs generalizing st with
  | nil => exact h
  | cons e rest ih =>
    simp only [List.foldl_cons]
    exact ih (runStep st e) (runStep_killed_mem st e x h)

/-- Activity emissions are produced in non-decreasing elapsed order along
any fold whose event times dominate the elapsed values already logged. -/
theorem runFold_sorted (evs : List RunEvent) :
    ∀ (st : RunState) (t0 : Nat),
      List.Chain (· ≤ ·) t0 (evs.map evTime) →
      List.Chain' (· ≤ ·) (activityElapsed st.log) →
      (∀ x ∈ activityElapsed st.log, x ≤ t0 / 1000) →
      List.Chain' (· ≤ ·) (activityElapsed ((evs.foldl runStep st).log)) := by
  induction evs with
  | nil => intro st t0 _ hs _; exact hs
  | cons e rest ih =>
    intro st t0 hchain hs hbound
    rw [List.map_cons] at hchain
    cases hchain with
    | cons h01 hchain2 =>
      obtain ⟨d, hd, he⟩ := runStep_log st e
      simp only [List.foldl_cons]
      apply ih (runStep st e) (evTime e) hchain2
      · rw [hd]
        unfold activityElapsed
        rw [List.filterMap_append]
        exact chain'_append_of_bound _ _ (evTime e / 1000) hs
          (fun x hx => le_trans (hbound x hx) (Nat.div_le_div_right h01)) he
      · intro x hx
        rw [hd] at hx
        unfold activityElapsed at hx
        rw [List.filterMap_append] at hx
        rcases List.mem_append.mp hx with hxl | hxr
        · exact le_trans (hbound x hxl) (Nat.div_le_div_right h01)
        · rw [he x hxr]

theorem asString_eq_empty_iff (l : List Char) : l.asString = "" ↔ l = [] := by
  constructor
  · intro h
    have h2 := congrArg String.data h
    simpa using h2
  · intro h
    rw [h]
    decide

/-- C5.  When the spawned process closes with exit code `c` before the
timeout or a spawn error resolves the run: if `c ≠ 0` and the accumulated
stderr is non-empty, the `RunResult` is `{output: stdout-or-"Error
occurred", error: stderr}`; otherwise — including `c ≠ 0` with empty
stderr, and `c = 0` regardless of stderr — it is
`{output: stdout-or-"(no output)"}` with no error.  In particular exit code
0 never yields an error.  `pre` is everything the event loop delivered
before `close` (none of it resolving), `post` whatever follows; stdout and
stderr at close time are the accumulated chunks of `pre`. -/
theorem runPi_close_result :
    ∀ (pre post : List RunEvent) (c : Int) (t : Nat),
      (∀ e ∈ pre, isResolver e = false) →
      ((c ≠ 0 ∧ (runStream pre).stderr ≠ [] →
        (runStream (pre ++ .close (some c) t :: post)).resolvedResult =
          some { output := if (runStream pre).stdout = [] then "Error occurred"
                           else (runStream pre).stdout.asString,
                 error := some (runStream pre).stderr.asString })
      ∧ ((c = 0 ∨ (runStream pre).stderr = []) →
        (runStream (pre ++ .close (some c) t :: post)).resolvedResult =
          some { output := if (runStream pre).stdout = [] then "(no output)"
                           else (runStream pre).stdout.asString,
                 error := none })) := by
  intro pre post c t hpre
  have hnone := (runStream_nonresolver pre hpre).1
  have hkey : (runStream (pre ++ .close (some c) t :: post)).resolvedResult =
      some (resolveOnClose (some c) (runStream pre).stdout (runStream pre).stderr) := by
    unfold runStream
    rw [List.foldl_append, List.foldl_cons]
    exact runFold_resolved_persist post _ _
      ((runStep_close_of_unresolved (runStream pre) (some c) t hnone).1)
  constructor
  · intro hc
    rw [hkey]
    unfold resolveOnClose
    rw [if_pos ⟨by simpa using hc.1, hc.2⟩]
  · intro hor
    rw [hkey]
    unfold resolveOnClose
    have hcond : ¬(some c ≠ some (0 : Int) ∧ (runStream pre).stderr ≠ []) := by
      rcases hor with h0 | hse
      · intro hcontra
        exact hcontra.1 (by rw [h0])
      · intro hcontra
        exact hcontra.2 hse
    rw [if_neg hcond]

/-- Witness for C5: the spec's concrete scenarios 1 and 2.  Exit 0 with
stdout `"Hi there"` gives a clean result; exit 1 with stderr `"boom"` and
no stdout gives `{output: "Error occurred", error: "boom"}`. -/
theorem runPi_close_result_witness :
    (runStream [.data "Hi there".toList 500, .close (some 0) 600]).resolvedResult =
        some { output := "Hi there", error := none }
    ∧ (runStream [.errData "boom".toList 100, .close (some 1) 200]).resolvedResult =
        some { output := "Error occurred", error := some "boom" } := by
  constructor
  · exact ((runPi_close_result [.data "Hi there".toList 500] [] 0 600
      (by decide)).2 (Or.inl rfl)).trans (by decide)
  · exact ((runPi_close_result [.errData "boom".toList 100] [] 1 200
      (by decide)).1 ⟨by decide, by decide⟩).trans (by decide)

/-- C6.  If the wall-clock timeout fires before `close` or `error` has
resolved the run, the process is sent SIGTERM and the `RunResult` resolves
to `{output: stdout-so-far, error: "Timeout: Pi took too long"}`; the
stdout captured so far is exactly the concatenation of the data chunks
delivered before the timeout. -/
theorem runPi_timeout_result :
    ∀ (pre post : List RunEvent) (t : Nat),
      (∀ e ∈ pre, isResolver e = false) →
      (runStream (pre ++ .timeoutFire t :: post)).resolvedResult =
          some { output := (runStream pre).stdout.asString,
                 error := some "Timeout: Pi took too long" }
      ∧ "SIGTERM" ∈ (runStream (pre ++ .timeoutFire t :: post)).killed
      ∧ (runStream pre).stdout = (pre.filterMap dataChunk).flatten := by
  intro pre post t hpre
  have hnone := (runStream_nonresolver pre hpre).1
  have hstep := runStep_timeout_of_unresolved (runStream pre) t hnone
  refine ⟨?_, ?_, (runStream_nonresolver pre hpre).2.1⟩
  · unfold runStream
    rw [List.foldl_append, List.foldl_cons]
    exact runFold_resolved_persist post _ _ hstep.1
  · unfold runStream
    rw [List.foldl_append, List.foldl_cons]
    exact runFold_killed_mem post _ _ hstep.2

/-- Witness for C6: the spec's concrete scenario 3 (with partial output):
a run that only produced `"partial output"` times out with that output,
the timeout sentinel, and a SIGTERM sent. -/
theorem runPi_timeout_result_witness :
    (runStream [.data "partial output".toList 50, .timeoutFire 300000]).resolvedResult =
        some { output := "partial output", error := some "Timeout: Pi took too long" }
    ∧ "SIGTERM" ∈ (runStream [.data "partial output".toList 50, .timeoutFire 300000]).killed := by
  have h := runPi_timeout_result [.data "partial output".toList 50] [] 300000 (by decide)
  exact ⟨h.1.trans (by decide), h.2.1⟩

/-- Trace for C2: a partial line `"Reading f"` (no newline) arrives, the
timeout fires and resolves the run, the SIGTERM-killed process then emits
its `close` event, whose handler flushes the trailing partial line through
the classifier and invokes `onActivity` — after the `RunResult` resolved. -/
def c2Trace : List RunEvent :=
  [.data "Reading f".toList 1000, .timeoutFire 300000, .close none 300500]

/-- Counterexample to C2: on the timeout path an `ActivityUpdate` is
delivered after the run's `RunResult` has resolved.  The trace `c2Trace` is
well-formed (monotone times, single close, timer at the configured
timeout), yet its emission log is the terminal result followed by a
`reading` activity. -/
theorem activity_after_result_counterexample :
    wellFormedTrace 300000 c2Trace = true
    ∧ (runStream c2Trace).log =
      [.result { output := "Reading f", error := some "Timeout: Pi took too long" },
       .activity { type := .reading, detail := "f", elapsed := 300 }] := by decide

/-- C2 (amended).  Within one run of `runPiWithStreaming`: (1) activity
updates are delivered in non-decreasing elapsed order whenever the
delivered event times are non-decreasing; (2) on a normal close with no
earlier resolver the terminal `RunResult` is the last emission; (3) same on
the spawn-error path.  (The original claim's "no ActivityUpdate after the
RunResult on any termination path" is false on the timeout path, see
`activity_after_result_counterexample`: stdout data or the late `close`
flush still drive `onActivity` after resolution.) -/
theorem streaming_order_amended :
    (∀ evs : List RunEvent, List.Chain' (· ≤ ·) (evs.map evTime) →
      List.Chain' (· ≤ ·) (activityElapsed (runStream evs).log))
    ∧ (∀ (pre : List RunEvent) (code : Option Int) (t : Nat),
        (∀ e ∈ pre, isResolver e = false) →
        (runStream (pre ++ [.close code t])).log.getLast? =
          some (.result (resolveOnClose code (runStream pre).stdout (runStream pre).stderr)))
    ∧ (∀ (pre : List RunEvent) (msg : String) (t : Nat),
        (∀ e ∈ pre, isResolver e = false) →
        (runStream (pre ++ [.procError msg t])).log.getLast? =
          some (.result { output := "", error := some ("Failed to start Pi: " ++ msg) })) := by
  refine ⟨?_, ?_, ?_⟩
  · intro evs hch
    apply runFold_sorted evs initRun 0
    · cases hm : evs.map evTime with
      | nil => exact List.Chain.nil
      | cons a l =>
        rw [hm] at hch
        exact List.Chain.cons (Nat.zero_le a) hch
    · exact List.chain'_nil
    · intro x hx
      simp [activityElapsed, initRun] at hx
  · intro pre code t hpre
    have hnone := (runStream_nonresolver pre hpre).1
    unfold runStream
    rw [List.foldl_append, List.foldl_cons, List.foldl_nil]
    exact (runStep_close_of_unresolved (runStream pre) code t hnone).2
  · intro pre msg t hpre
    have hnone := (runStream_nonresolver pre hpre).1
    unfold runStream
    rw [List.foldl_append, List.foldl_cons, List.foldl_nil]
    exact (runStep_procError_of_unresolved (runStream pre) msg t hnone).2

/-- Witness for C2 (amended): ordered activities on a concrete two-event
trace; result-last on a concrete normal close and a concrete spawn error. -/
theorem streaming_order_amended_witness :
    List.Chain' (· ≤ ·)
      (activityElapsed (runStream [.data "Reading a\n".toList 1000, .tick 7000]).log)
    ∧ (runStream [.data "Reading a\n".toList 1000, .close (some 0) 2000]).log.getLast? =
        some (.result { output := "Reading a\n", error := none })
    ∧ (runStream [.procError "spawn ENOENT" 10]).log.getLast? =
        some (.result { output := "", error := some "Failed to start Pi: spawn ENOENT" }) := by
  refine ⟨?_, ?_, ?_⟩
  · refine streaming_order_amended.1 [.data "Reading a\n".toList 1000, .tick 7000] ?_
    show List.Chain' (· ≤ ·) [1000, 7000]
    rw [List.chain'_cons]
    exact ⟨by norm_num, List.chain'_singleton _⟩
  · exact (streaming_order_amended.2.1 [.data "Reading a\n".toList 1000] (some 0) 2000
      (by decide)).trans (by decide)
  · exact (streaming_order_amended.2.2 [] "spawn ENOENT" 10 (by decide)).trans (by decide)

/-- Counterexample to C7: on the timeout path with no captured output the
`RunResult` is `{output: "", error: "Timeout: Pi took too long"}` — the
output is the empty string, not the `"(no output)"` sentinel (and on the
error-close path the empty-stdout default is `"Error occurred"`, also not
the sentinel). -/
theorem runresult_sentinel_counterexample :
    wellFormedTrace 300000 [.timeoutFire 300000] = true
    ∧ (runStream [.timeoutFire 300000]).resolvedResult =
        some { output := "", error := some "Timeout: Pi took too long" }
    ∧ ("" : String) ≠ "(no output)"
    ∧ (runStream [.errData "boom".toList 100, .close (some 1) 200]).resolvedResult =
        some { output := "Error occurred", error := some "boom" }
    ∧ ("Error occurred" : String) ≠ "(no output)" := by decide

theorem runStep_new_result (st : RunState) (e : RunEvent) (r : RunResult)
    (h : (runStep st e).resolvedResult = some r) :
    st.resolvedResult = some r ∨ (r.error = none → r.output ≠ "") := by
  cases e with
  | data chunk t =>
    left
    rw [← (runStep_nonresolver st (.data chunk t) rfl).1]
    exact h
  | errData chunk t =>
    left
    exact h
  | tick t =>
    left
    rw [← (runStep_nonresolver st (.tick t) rfl).1]
    exact h
  | close code t =>
    cases hres : st.resolvedResult with
    | some r0 =>
      left
      rw [runStep_resolved_persist st _ r0 hres] at h
      exact h
    | none =>
      right
      rw [(runStep_close_of_unresolved st code t hres).1] at h
      injection h with h2
      subst h2
      unfold resolveOnClose
      by_cases hcond : code ≠ some 0 ∧ st.stderr ≠ []
      · rw [if_pos hcond]
        intro habs
        exact absurd habs (by simp)
      · rw [if_neg hcond]
        intro _
        by_cases hso : st.stdout = []
        · rw [if_pos hso]
          decide
        · rw [if_neg hso]
          intro habs
          exact hso ((asString_eq_empty_iff st.stdout).mp habs)
  | procError msg t =>
    cases hres : st.resolvedResult with
    | some r0 =>
      left
      rw [runStep_resolved_persist st _ r0 hres] at h
      exact h
    | none =>
      right
      rw [(runStep_procError_of_unresolved st msg t hres).1] at h
      injection h with h2
      subst h2
      intro habs
      exact absurd habs (by simp)
  | timeoutFire t =>
    cases hres : st.resolvedResult with
    | some r0 =>
      left
      rw [runStep_resolved_persist st _ r0 hres] at h
      exact h
    | none =>
      right
      rw [(runStep_timeout_of_unresolved st t hres).1] at h
      injection h with h2
      subst h2
      intro habs
      exact absurd habs (by simp)

theorem runFold_goodRes (evs : List RunEvent) :
    ∀ (st : RunState),
      (∀ r, st.resolvedResult = some r → r.error = none → r.output ≠ "") →
      ∀ r, (evs.foldl runStep st).resolvedResult = some r →
        r.error = none → r.output ≠ "" := by
  induction evs with
  | nil => intro st hst; exact hst
  | cons e rest ih =>
    intro st hst r
    simp only [List.foldl_cons]
    intro hr
    refine ih (runStep st e) ?_ r hr
    intro r2 hr2
    rcases runStep_new_result st e r2 hr2 with hold | hgood
    · exact hst r2 hold
    · exact hgood

/-- C7 (amended).  Every `RunResult` resolved by a run satisfies: exactly
one of {error absent, error present} holds (the `error` field is an
option), and whenever the error is absent the output is a non-empty
string — the stdout, or the `"(no output)"` sentinel when stdout was empty.
The sentinel default applies on the clean-close path only: the non-zero
exit path defaults empty stdout to `"Error occurred"`, and the
spawn-failure and timeout paths report the raw captured output, possibly
the empty string (see `runresult_sentinel_counterexample`). -/
theorem runresult_invariant_amended :
    (∀ (evs : List RunEvent) (r : RunResult),
      (runStream evs).resolvedResult = some r → r.error = none → r.output ≠ "")
    ∧ (∀ (code : Option Int) (se : List Char), code = some 0 ∨ se = [] →
        resolveOnClose code [] se = { output := "(no output)", error := none }) := by
  constructor
  · intro evs r h
    refine runFold_goodRes evs initRun ?_ r h
    intro r2 hr2
    exact absurd hr2 (by simp [initRun])
  · intro code se hor
    unfold resolveOnClose
    have hcond : ¬(code ≠ some (0 : Int) ∧ se ≠ []) := by
      rcases hor with h0 | hse
      · intro hcontra
        exact hcontra.1 h0
      · intro hcontra
        exact hcontra.2 hse
    rw [if_neg hcond]
    rfl

/-- Witness for C7 (amended): the clean close of an output-less run
resolves to the non-empty sentinel `"(no output)"`, and the close-handler
logic maps exit 0 with empty stdout to exactly that result. -/
theorem runresult_invariant_amended_witness :
    ("(no output)" : String) ≠ ""
    ∧ resolveOnClose (some 0) [] "warning".toList =
        { output := "(no output)", error := none } := by
  constructor
  · exact runresult_invariant_amended.1 [.close (some 0) 5]
      { output := "(no output)", error := none } (by decide) rfl
  · exact runresult_invariant_amended.2 (some 0) "warning".toList (Or.inl rfl)

/-- Counterexample to C8: for the searching rule the detail is not "the
remainder of the line after the matched verb".  On `"Searching for the
bug"` the classifier yields the fixed detail `"codebase"`, not the
remainder `"for the bug"` (nor `" for the bug"`); likewise the thinking
rule always yields `""`. -/
theorem detectActivity_detail_counterexample :
    detectActivity "Searching for the bug" =
      some { type := .searching, detail := "codebase" }
    ∧ ("codebase" : String) ≠ "for the bug"
    ∧ ("codebase" : String) ≠ " for the bug"
    ∧ detectActivity "Analyzing the data" = some { type := .thinking, detail := "" }
    ∧ ("" : String) ≠ "the data" := by decide

/-- The classifier's rule table as an explicit ordered list of rules, in
the source order: reading, writing, running/shell-prompt, searching,
thinking. -/
def classifierRules : List (List Char → Option Activity) :=
  [fun t => (ruleVerbWS readingVerbs t).map fun d =>
      { type := .reading, detail := if d = [] then "file" else d.asString },
   fun t => (ruleVerbWS writingVerbs t).map fun d =>
      { type := .writing, detail := if d = [] then "file" else d.asString },
   fun t => (ruleRunning t).map fun d =>
      { type := .running, detail := if d = [] then "command" else (d.take 50).asString },
   fun t => if anyPrefixCI searchingVerbs t then
      some { type := .searching, detail := "codebase" } else none,
   fun t => if anyPrefixCI thinkingVerbs t then
      some { type := .thinking, detail := "" } else none]

/-- First-match-wins application of an ordered rule list. -/
def applyFirst : List (List Char → Option Activity) → List Char → Option Activity
| [], _ => none
| r :: rs, t =>
  match r t with
  | some a => some a
  | none => applyFirst rs t

theorem running_detail_len (d : List Char) :
    (if d = [] then "command" else ((d.take 50).asString : String)).length ≤ 50 := by
  by_cases hd : d = []
  · rw [if_pos hd]
    decide
  · rw [if_neg hd]
    show (d.take 50).length ≤ 50
    rw [List.length_take]
    exact min_le_left _ _

theorem classifyTrimmed_rules (t : List Char) :
    classifyTrimmed t = if t = [] then none else applyFirst classifierRules t := by
  unfold classifyTrimmed
  by_cases h0 : t = []
  · rw [if_pos h0, if_pos h0]
  · rw [if_neg h0, if_neg h0]
    unfold classifierRules applyFirst
    cases h1 : ruleVerbWS readingVerbs t with
    | some d => simp [h1]
    | none =>
      simp only [h1, Option.map_none']
      unfold applyFirst
      cases h2 : ruleVerbWS writingVerbs t with
      | some d => simp [h2]
      | none =>
        simp only [h2, Option.map_none']
        unfold applyFirst
        cases h3 : ruleRunning t with
        | some d => simp [h3]
        | none =>
          simp only [h3, Option.map_none']
          unfold applyFirst
          by_cases h4 : anyPrefixCI searchingVerbs t
          · simp [h4]
          · simp only [h4, Bool.false_eq_true, if_false]
            unfold applyFirst
            by_cases h5 : anyPrefixCI thinkingVerbs t
            · simp [h5]
            · simp only [h5, Bool.false_eq_true, if_false]
              rfl

theorem classifyTrimmed_details (t : List Char) (a : Activity)
    (h : classifyTrimmed t = some a) :
    (a.type = .searching → a.detail = "codebase")
    ∧ (a.type = .thinking → a.detail = "")
    ∧ (a.type = .running → a.detail.length ≤ 50) := by
  unfold classifyTrimmed at h
  by_cases h0 : t = []
  · rw [if_pos h0] at h
    exact absurd h (by simp)
  · rw [if_neg h0] at h
    cases h1 : ruleVerbWS readingVerbs t with
    | some d =>
      simp only [h1] at h
      injection h with h2
      subst h2
      exact ⟨fun ht => by simp at ht, fun ht => by simp at ht, fun ht => by simp at ht⟩
    | none =>
      simp only [h1] at h
      cases h2 : ruleVerbWS writingVerbs t with
      | some d =>
        simp only [h2] at h
        injection h with h3
        subst h3
        exact ⟨fun ht => by simp at ht, fun ht => by simp at ht, fun ht => by simp at ht⟩
      | none =>
        simp only [h2] at h
        cases h3 : ruleRunning t with
        | some d =>
          simp only [h3] at h
          injection h with h4
          subst h4
          refine ⟨fun ht => by simp at ht, fun ht => by simp at ht, fun _ => ?_⟩
          exact running_detail_len d
        | none =>
          simp only [h3] at h
          by_cases h4 : anyPrefixCI searchingVerbs t
          · simp only [h4, if_true] at h
            injection h with h5
            subst h5
            exact ⟨fun _ => rfl, fun ht => by simp at ht, fun ht => by simp at ht⟩
          · simp only [h4, Bool.false_eq_true, if_false] at h
            by_cases h5 : anyPrefixCI thinkingVerbs t
            · simp only [h5, if_true] at h
              injection h with h6
              subst h6
              exact ⟨fun ht => by simp at ht, fun _ => rfl, fun ht => by simp at ht⟩
            · simp only [h5, Bool.false_eq_true, if_false] at h
              exact absurd h (by simp)

/-- C8 (amended).  `detectActivity` trims the line and applies the rules in
the fixed source order reading, writing, running/shell-prompt, searching,
thinking, the first matching rule winning (part 1, the ordered-rule-table
characterisation); blank lines yield no event (part 2).  The detail text is
the remainder after the matched verb only for the reading, writing and
running rules (with fallbacks `"file"`/`"command"` and a 50-character
truncation for running; part 4 states this for the winning reading rule,
and part 1 for the rest through the rule table).  The searching rule's
detail is always `"codebase"` and the thinking rule's always `""`
(part 3; this corrects the claim's "for every matched rule", see
`detectActivity_detail_counterexample`). -/
theorem detectActivity_rules_amended :
    (∀ line : String, detectActivity line =
      (if trimChars line.toList = [] then none
       else applyFirst classifierRules (trimChars line.toList)))
    ∧ (∀ line : String, trimChars line.toList = [] → detectActivity line = none)
    ∧ (∀ (line : String) (a : Activity), detectActivity line = some a →
        (a.type = .searching → a.detail = "codebase")
        ∧ (a.type = .thinking → a.detail = "")
        ∧ (a.type = .running → a.detail.length ≤ 50))
    ∧ (∀ (line : String) (d : List Char),
        ruleVerbWS readingVerbs (trimChars line.toList) = some d →
        detectActivity line =
          some { type := .reading, detail := if d = [] then "file" else d.asString }) := by
  refine ⟨?_, ?_, ?_, ?_⟩
  · intro line
    exact classifyTrimmed_rules (trimChars line.toList)
  · intro line h0
    show classifyTrimmed (trimChars line.toList) = none
    unfold classifyTrimmed
    rw [if_pos h0]
  · intro line a h
    exact classifyTrimmed_details (trimChars line.toList) a h
  · intro line d h1
    show classifyTrimmed (trimChars line.toList) = _
    unfold classifyTrimmed
    have h0 : trimChars line.toList ≠ [] := by
      intro h0
      rw [h0] at h1
      simp [ruleVerbWS, firstAlt, readingVerbs, stripCI] at h1
    rw [if_neg h0]
    simp only [h1]

/-- Witness for C8 (amended): each part applied at a concrete line. -/
theorem detectActivity_rules_amended_witness :
    detectActivity "Running abc" =
      (if trimChars "Running abc".toList = [] then none
       else applyFirst classifierRules (trimChars "Running abc".toList))
    ∧ detectActivity "   " = none
    ∧ ("codebase" : String) = "codebase"
    ∧ detectActivity "Reading notes.txt" =
        some { type := .reading,
               detail := if "notes.txt".toList = [] then "file"
                         else "notes.txt".toList.asString } := by
  refine ⟨?_, ?_, ?_, ?_⟩
  · exact detectActivity_rules_amended.1 "Running abc"
  · exact detectActivity_rules_amended.2.1 "   " (by decide)
  · exact (detectActivity_rules_amended.2.2.1 "Searching the web"
      { type := .searching, detail := "codebase" } (by decide)).1 rfl
  · exact detectActivity_rules_amended.2.2.2 "Reading notes.txt" "notes.txt".toList (by decide)

/-! ## Artifact extractor (pi-runner.ts lines 284-360)

`extractImagesFromSession` reads the transcript, splits it into lines, and
scans the lines from index `afterLine` on.  The transcript is modelled as
the list of per-line `JSON.parse` results: `none` for a line that is not
well-formed JSON (the inner `catch` skips it), `some v` for the parsed
value (objects are duplicate-free key-value lists, as produced by
`JSON.parse`; numbers are integers here as no artifact logic inspects
them).  `Buffer.from(data, "base64")` is abstracted: payloads are carried
as the parsed JSON values. -/

inductive JVal
| jnull
| jbool (b : Bool)
| jnum (n : Int)
| jstr (s : String)
| jarr (items : List JVal)
| jobj (fields : List (String × JVal))

/-- Property access `v.k`: `none` plays `undefined` (missing key, or
access on a non-object as guarded by the source's optional chaining). -/
def getField : JVal → String → Option JVal
| .jobj fields, k => fields.lookup k
| _, _ => none

/-- JavaScript truthiness of a parsed JSON value. -/
def truthy : JVal → Bool
| .jnull => false
| .jbool b => b
| .jnum n => decide (n ≠ 0)
| .jstr s => decide (s ≠ "")
| .jarr _ => true
| .jobj _ => true

def truthyOpt : Option JVal → Bool
| none => false
| some v => truthy v

/-- Strict equality `v === "s"` against a string literal: true exactly for
the equal string value. -/
def isStrVal (v : Option JVal) (s : String) : Bool :=
  match v with
  | some (.jstr s2) => s2 == s
  | _ => false

structure ExtractedImage where
  data : JVal
  mimeType : JVal

/-- `item.source.media_type || "image/png"`. -/
def mimeOrDefault : Option JVal → JVal
| some v => if truthy v then v else .jstr "image/png"
| none => .jstr "image/png"

/-- Per content item (lines 329-348): shape 1
`{type:"image", data, mimeType}` with truthy data and mimeType, else shape
2 `{type:"image", source:{type:"base64", data}}` with truthy source data. -/
def extractFromItem (item : JVal) : List ExtractedImage :=
  if isStrVal (getField item "type") "image"
      && truthyOpt (getField item "data")
      && truthyOpt (getField item "mimeType") then
    match getField item "data", getField item "mimeType" with
    | some d, some m => [{ data := d, mimeType := m }]
    | _, _ => []
  else if isStrVal (getField item "type") "image"
      && isStrVal ((getField item "source").bind (fun src => getField src "type")) "base64"
      && truthyOpt ((getField item "source").bind (fun src => getField src "data")) then
    match (getField item "source").bind (fun src => getField src "data") with
    | some d =>
      [{ data := d,
         mimeType := mimeOrDefault
           ((getField item "source").bind (fun src => getField src "media_type")) }]
    | none => []
  else []

/-- Per transcript line (lines 323-350): a `{type:"message"}` record whose
`message.role` is `"toolResult"` and whose `message.content` is an array
contributes the images of its items, in item order. -/
def extractFromEntry (entry : JVal) : List ExtractedImage :=
  if isStrVal (getField entry "type") "message"
      && isStrVal ((getField entry "message").bind (fun m => getField m "role")) "toolResult" then
    match (getField entry "message").bind (fun m => getField m "content") with
    | some (.jarr items) => items.foldl (fun acc item => acc ++ extractFromItem item) []
    | _ => []
  else []

/-- Translation of `extractImagesFromSession` (lines 306-360) over the
parsed transcript lines: scan `lines.slice(afterLine)` in order, skipping
unparseable lines, accumulating extracted images. -/
def extractImagesFromSession (lines : List (Option JVal)) (afterLine : Nat) :
    List ExtractedImage :=
  (lines.drop afterLine).foldl
    (fun images l =>
      match l with
      | some entry => images ++ extractFromEntry entry
      | none => images) []

def sampleImageEntry : JVal :=
  .jobj [("type", .jstr "message"),
         ("message", .jobj
           [("role", .jstr "toolResult"),
            ("content", .jarr
              [.jobj [("type", .jstr "image"), ("data", .jstr "AA=="),
                      ("mimeType", .jstr "image/png")]])])]

example : extractImagesFromSession [none, none, none, some sampleImageEntry] 0 =
    [{ data := .jstr "AA==", mimeType := .jstr "image/png" }] := rfl
example : extractImagesFromSession [none, none, none, some sampleImageEntry] 4 = [] := rfl
example : extractImagesFromSession
    [some (.jobj [("type", .jstr "message"),
      ("message", .jobj [("role", .jstr "toolResult"),
        ("content", .jarr [.jobj [("type", .jstr "image"),
          ("source", .jobj [("type", .jstr "base64"), ("data", .jstr "QUJD")])]])])])] 0 =
    [{ data := .jstr "QUJD", mimeType := .jstr "image/png" }] := rfl

theorem extractImages_foldl (ls : List (Option JVal)) (acc : List ExtractedImage) :
    ls.foldl
      (fun images l =>
        match l with
        | some entry => images ++ extractFromEntry entry
        | none => images) acc
    = acc ++ ((ls.filterMap id).map extractFromEntry).flatten := by
  induction ls generalizing acc with
  | nil => simp
  | cons l rest ih =>
    cases l with
    | some e =>
      simp only [List.foldl_cons, List.filterMap_cons, id]
      rw [ih]
      simp [List.append_assoc]
    | none =>
      simp only [List.foldl_cons, List.filterMap_cons, id]
      rw [ih]

/-- C9.  `extractImagesFromSession` never returns an artifact originating
from a transcript line of index `< afterLine`: its result depends only on
the lines from `afterLine` on (part 1).  The returned artifacts are the
per-line extractions of the parseable suffix lines concatenated in
transcript line order, with non-JSON lines skipped without affecting the
rest (part 2). -/
theorem extractImages_watermark_order :
    (∀ (lines lines2 : List (Option JVal)) (afterLine : Nat),
      lines.drop afterLine = lines2.drop afterLine →
      extractImagesFromSession lines afterLine =
        extractImagesFromSession lines2 afterLine)
    ∧ (∀ (lines : List (Option JVal)) (afterLine : Nat),
      extractImagesFromSession lines afterLine =
        (((lines.drop afterLine).filterMap id).map extractFromEntry).flatten) := by
  constructor
  · intro lines lines2 afterLine hdrop
    unfold extractImagesFromSession
    rw [hdrop]
  · intro lines afterLine
    unfold extractImagesFromSession
    rw [extractImages_foldl]
    rfl

/-- Witness for C9: replacing a pre-watermark line (here a non-JSON line
against a parseable one) does not change the extraction, and the
scenario-5 transcript extracts exactly its one image in line order. -/
theorem extractImages_watermark_order_witness :
    extractImagesFromSession [none, some sampleImageEntry] 1 =
      extractImagesFromSession [some (.jstr "garbage"), some sampleImageEntry] 1
    ∧ extractImagesFromSession [none, some sampleImageEntry] 1 =
      ((([none, some sampleImageEntry].drop 1).filterMap id).map extractFromEntry).flatten := by
  exact ⟨extractImages_watermark_order.1 [none, some sampleImageEntry]
          [some (.jstr "garbage"), some sampleImageEntry] 1 rfl,
         extractImages_watermark_order.2 [none, some sampleImageEntry] 1⟩

/-! ## Workspace file detector (file-detector module)

`getFileList` calls `readdir(dir, {withFileTypes: true})` — which lists
only the direct children of `dir` — keeps the entries for which
`entry.isFile()` holds, and `stat`s each to record its mtime.  A directory
read is modelled as `Option (List DirEntry)` (`none` = readdir threw, the
outer `catch` yields the empty map); a stat result as `Option Nat`
(`none` = stat threw, the inner `catch` skips the entry).  The JS `Map` is
an association list in insertion order (`Map` iteration order). -/

structure DirEntry where
  name : String
  isFile : Bool
  mtime : Option Nat
deriving DecidableEq, Repr

/-- `path.join(dir, entry.name)`. -/
def joinPath (dir name : String) : String := dir ++ "/" ++ name

/-- Translation of `getFileList` (file-detector lines 58-80). -/
def getFileList (dir : String) (entries : Option (List DirEntry)) :
    List (String × Nat) :=
  match entries with
  | none => []
  | some es =>
    es.foldl
      (fun files e =>
        if e.isFile then
          match e.mtime with
          | some m => files ++ [(joinPath dir e.name, m)]
          | none => files
        else files) []

/-- Translation of `snapshotWorkspace` (lines 106-110). -/
def snapshotWorkspace (workspace : String) (entries : Option (List DirEntry)) :
    List (String × Nat) :=
  getFileList workspace entries

/-- Translation of `detectNewFiles` (lines 85-101): a file of the after
listing is reported when it is absent from the before snapshot or its
mtime strictly increased. -/
def detectNewFiles (workspace : String) (afterEntries : Option (List DirEntry))
    (beforeFiles : List (String × Nat)) : List String :=
  (getFileList workspace afterEntries).foldl
    (fun newFiles pm =>
      match beforeFiles.lookup pm.1 with
      | none => newFiles ++ [pm.1]
      | some beforeMtime =>
        if pm.2 > beforeMtime then newFiles ++ [pm.1] else newFiles) []

example : getFileList "/ws" (some [⟨"a.txt", true, some 5⟩, ⟨"sub", false, some 9⟩,
    ⟨"b.bin", true, none⟩, ⟨"c.md", true, some 7⟩]) =
    [("/ws/a.txt", 5), ("/ws/c.md", 7)] := by decide
example : detectNewFiles "/ws" (some [⟨"a.txt", true, some 5⟩, ⟨"c.md", true, some 9⟩])
    [("/ws/a.txt", 5), ("/ws/c.md", 7)] = ["/ws/c.md"] := by decide

theorem getFileList_foldl (dir : String) (es : List DirEntry)
    (acc : List (String × Nat)) :
    es.foldl
      (fun files e =>
        if e.isFile then
          match e.mtime with
          | some m => files ++ [(joinPath dir e.name, m)]
          | none => files
        else files) acc
    = acc ++ es.filterMap
        (fun e => if e.isFile then e.mtime.map (fun m => (joinPath dir e.name, m))
                  else none) := by
  induction es generalizing acc with
  | nil => simp
  | cons e rest ih =>
    simp only [List.foldl_cons, List.filterMap_cons]
    by_cases hf : e.isFile
    · cases hm : e.mtime with
      | some m =>
        simp only [hf, if_true, hm, Option.map_some']
        rw [ih]
        simp [List.append_assoc]
      | none =>
        simp only [hf, if_true, hm, Option.map_none']
        rw [ih]
    · simp only [Bool.not_eq_true] at hf
      simp only [hf, Bool.false_eq_true, if_false]
      rw [ih]

theorem getFileList_filterMap (dir : String) (es : List DirEntry) :
    getFileList dir (some es) = es.filterMap
      (fun e => if e.isFile then e.mtime.map (fun m => (joinPath dir e.name, m))
                else none) := by
  unfold getFileList
  dsimp only
  rw [getFileList_foldl]
  rfl

theorem detectNewFiles_foldl (before : List (String × Nat))
    (afterList : List (String × Nat)) (acc : List String) :
    afterList.foldl
      (fun newFiles pm =>
        match before.lookup pm.1 with
        | none => newFiles ++ [pm.1]
        | some beforeMtime =>
          if pm.2 > beforeMtime then newFiles ++ [pm.1] else newFiles) acc
    = acc ++ afterList.filterMap
        (fun pm =>
          match before.lookup pm.1 with
          | none => some pm.1
          | some beforeMtime => if pm.2 > beforeMtime then some pm.1 else none) := by
  induction afterList generalizing acc with
  | nil => simp
  | cons pm rest ih =>
    simp only [List.foldl_cons, List.filterMap_cons]
    cases hl : before.lookup pm.1 with
    | none =>
      rw [ih]
      simp [List.append_assoc]
    | some b =>
      by_cases hgt : pm.2 > b
      · simp only [hgt, if_true]
        rw [ih]
        simp [List.append_assoc]
      · simp only [hgt, if_false]
        rw [ih]

/-- C10.  `snapshotWorkspace` / `getFileList` and `detectNewFiles` see only
the direct child entries of the directory that are regular files: every
snapshot entry comes from a direct `readdir` entry with `isFile` and a
successful `stat` and is named `dir/name` for that entry (part 1) — a file
inside a subdirectory is never in the snapshot; an unreadable directory
yields the empty snapshot rather than an error (part 2); an entry whose
`stat` fails (or that is not a regular file) is silently skipped, leaving
the rest of the listing intact (part 3); and every path reported by the
mtime diff is a key of the after snapshot, hence of the same direct-file
shape (part 4). -/
theorem workspace_direct_files_only :
    (∀ (dir : String) (es : List DirEntry) (p : String) (m : Nat),
      (p, m) ∈ getFileList dir (some es) →
      ∃ e ∈ es, e.isFile = true ∧ e.mtime = some m ∧ p = joinPath dir e.name)
    ∧ (∀ dir : String, getFileList dir none = [])
    ∧ (∀ (dir : String) (es1 es2 : List DirEntry) (bad : DirEntry),
        bad.isFile = false ∨ bad.mtime = none →
        getFileList dir (some (es1 ++ bad :: es2)) =
          getFileList dir (some (es1 ++ es2)))
    ∧ (∀ (ws : String) (aft : Option (List DirEntry))
        (before : List (String × Nat)) (p : String),
        p ∈ detectNewFiles ws aft before →
        ∃ m, (p, m) ∈ getFileList ws aft) := by
  refine ⟨?_, ?_, ?_, ?_⟩
  · intro dir es p m hmem
    rw [getFileList_filterMap] at hmem
    obtain ⟨e, hein, hfe⟩ := List.mem_filterMap.mp hmem
    refine ⟨e, hein, ?_⟩
    by_cases hf : e.isFile
    · rw [if_pos hf] at hfe
      cases hm : e.mtime with
      | some m2 =>
        rw [hm, Option.map_some'] at hfe
        injection hfe with hfe2
        have hp : p = joinPath dir e.name := congrArg Prod.fst hfe2.symm
        have hmm : m = m2 := congrArg Prod.snd hfe2.symm
        exact ⟨hf, by rw [hmm], hp⟩
      | none =>
        rw [hm, Option.map_none'] at hfe
        exact absurd hfe (by simp)
    · simp only [Bool.not_eq_true] at hf
      rw [hf] at hfe
      simp at hfe
  · intro dir
    rfl
  · intro dir es1 es2 bad hbad
    rw [getFileList_filterMap, getFileList_filterMap]
    rw [List.filterMap_append, List.filterMap_append, List.filterMap_cons]
    have hnone : (if bad.isFile then
        bad.mtime.map (fun m => (joinPath dir bad.name, m)) else none) = none := by
      rcases hbad with hb | hb
      · rw [hb]
        simp
      · by_cases hf : bad.isFile
        · rw [if_pos hf, hb, Option.map_none']
        · rw [if_neg hf]
    rw [hnone]
  · intro ws aft before p hmem
    unfold detectNewFiles at hmem
    rw [detectNewFiles_foldl] at hmem
    simp only [List.nil_append] at hmem
    obtain ⟨pm, hpmin, hpm⟩ := List.mem_filterMap.mp hmem
    have hp : pm.1 = p := by
      cases hl : before.lookup pm.1 with
      | none =>
        rw [hl] at hpm
        injection hpm
      | some b =>
        rw [hl] at hpm
        dsimp only at hpm
        by_cases hgt : pm.2 > b
        · rw [if_pos hgt] at hpm
          injection hpm
        · rw [if_neg hgt] at hpm
          exact absurd hpm (by simp)
    refine ⟨pm.2, ?_⟩
    rw [← hp]
    exact hpmin

/-- Witness for C10: an unreadable workspace snapshots to the empty map,
and dropping a stat-failing entry from a listing leaves the snapshot
unchanged. -/
theorem workspace_direct_files_only_witness :
    getFileList "/ws" none = []
    ∧ getFileList "/ws" (some [⟨"a.txt", true, some 5⟩, ⟨"b.bin", true, none⟩]) =
        getFileList "/ws" (some [⟨"a.txt", true, some 5⟩]) := by
  exact ⟨workspace_direct_files_only.2.1 "/ws",
         workspace_direct_files_only.2.2.1 "/ws" [⟨"a.txt", true, some 5⟩] []
           ⟨"b.bin", true, none⟩ (Or.inr rfl)⟩
